import Mathlib

/-!
Verification of the wpp web pre-processor (a Go program that assembles a
single HTML file from the CSS and Javascript files of an input directory,
and in dev mode keeps it up to date via a watch/rebuild event loop).

The definitions below are a shallow embedding of the source file of the
repository (package main).  Machine strings and byte buffers are modelled
as Lean strings, file sizes as natural numbers, fallible operations as
Except values.  The filesystem is modelled as a list of file entries; the
directory walk (filepath.Walk, which visits files in lexical order)
enumerates them sorted by path.  The text/template collaborator is
modelled for the fragment the program uses: literal text and the plain
actions naming the CSS and Javascript slots.
-/

namespace Wpp

/-! ### String helpers -/

/-- Left brace character (written numerically). -/
def lbrace : Char := Char.ofNat 123

/-- Right brace character (written numerically). -/
def rbrace : Char := Char.ofNat 125

/-- Concatenation of a list of strings. -/
def cat (l : List String) : String := l.foldr (fun a b => a ++ b) ""

theorem string_data_append (a b : String) : (a ++ b).data = a.data ++ b.data := by
  cases a
  cases b
  rfl

theorem string_append_assoc (a b c : String) : a ++ b ++ c = a ++ (b ++ c) := by
  cases a
  cases b
  cases c
  show String.mk _ = String.mk _
  simp [String.append, List.append_assoc]

theorem string_append_nil (a : String) : a ++ "" = a := by
  cases a
  show String.mk _ = String.mk _
  simp [String.append]

theorem string_nil_append (a : String) : "" ++ a = a := by
  cases a
  show String.mk _ = String.mk _
  simp [String.append]

theorem cat_nil : cat [] = "" := rfl

theorem cat_cons (a : String) (l : List String) : cat (a :: l) = a ++ cat l := rfl

theorem cat_append (l₁ l₂ : List String) : cat (l₁ ++ l₂) = cat l₁ ++ cat l₂ := by
  induction l₁ with
  | nil =>
    show cat l₂ = "" ++ cat l₂
    cases h : cat l₂
    show String.mk _ = String.mk _
    simp [String.append]
  | cons a t ih =>
    simp only [List.cons_append, cat_cons, ih, string_append_assoc]

theorem cat_mem_split (a : String) (l : List String) (h : a ∈ l) :
    ∃ p q : String, cat l = p ++ (a ++ q) := by
  induction l with
  | nil => cases h
  | cons b t ih =>
    rcases List.mem_cons.mp h with hb | ht
    · exact ⟨"", cat t, by rw [hb, cat_cons, string_nil_append]⟩
    · rcases ih ht with ⟨p, q, hpq⟩
      exact ⟨b ++ p, q, by simp [cat_cons, hpq, string_append_assoc]⟩

/-- Lower-casing of a string, character by character (models strings.ToLower
on the ASCII range, which is all the program compares against). -/
def lowerStr (s : String) : String := String.mk (s.data.map Char.toLower)

/-! ### File name extensions (filepath.Ext)

Go filepath.Ext returns the suffix of the path beginning at the final dot
of the final path element, and the empty string when the final element has
no dot. -/

/-- Core of the extension computation, over the character list of a path. -/
def goExtAux : List Char → List Char
  | [] => []
  | c :: rest =>
    match goExtAux rest with
    | [] => if c = '.' ∧ rest.contains '/' = false then c :: rest else []
    | d :: e => d :: e

/-- Model of Go filepath.Ext. -/
def goExt (s : String) : String := String.mk (goExtAux s.data)

/-! ### The change classifier (the updates branch of the dev-mode loop)

Each filewatch.Update carries the previous file info; the loop inspects
IsDir, WasRemoved and the base name.  The optional ignore pattern is the
compiled regular expression, modelled as an abstract boolean predicate on
the file name (regexp matching is an external collaborator). -/

/-- A filesystem change event as consumed by the loop (filewatch.Update). -/
structure Update where
  isDir : Bool
  wasRemoved : Bool
  name : String
deriving DecidableEq

/-- Translation of the per-update body of the updates branch: the update
contributes a pending rebuild exactly when it is not a directory, was not
a removal, is not matched by the ignore pattern, and its lower-cased
extension is .js or .css. -/
def relevantUpdate (ignore : Option (String → Bool)) (u : Update) : Bool :=
  !u.isDir && !u.wasRemoved &&
    (match ignore with
     | some m => !(m u.name)
     | none => true) &&
    (lowerStr (goExt u.name) == ".js" || lowerStr (goExt u.name) == ".css")

/-- Whether any update of a batch is relevant. -/
def batchRelevant (ignore : Option (String → Bool)) (us : List Update) : Bool :=
  us.any (relevantUpdate ignore)

/-- The fold the loop performs over a batch of updates: starting from the
current pending flag, each update ors in its own relevance. -/
def scanBatch (ignore : Option (String → Bool)) (pending : Bool) (us : List Update) : Bool :=
  us.foldl (fun p u => p || relevantUpdate ignore u) pending

theorem scanBatch_eq (ignore : Option (String → Bool)) (pending : Bool) (us : List Update) :
    scanBatch ignore pending us = (pending || batchRelevant ignore us) := by
  induction us generalizing pending with
  | nil => simp [scanBatch, batchRelevant]
  | cons u t ih =>
    have h1 : scanBatch ignore pending (u :: t)
        = scanBatch ignore (pending || relevantUpdate ignore u) t := rfl
    rw [h1, ih]
    simp [batchRelevant, Bool.or_assoc]

/-! ### The template collaborator (text/template, restricted to the fragment
the program relies on: literal text plus the plain actions for the two
slots, and the single dot action of the hot reload snippet, which is a
fixed constant and is modelled directly). -/

/-- A parsed template part: literal text, the CSS slot, or the Javascript
slot. -/
inductive TmplPart where
  | lit (s : String)
  | slotCSS
  | slotJS
deriving DecidableEq

/-- Scan for the closing action delimiter; returns the action text and the
remainder after the delimiter, or none when the action is unclosed. -/
def splitAction : List Char → Option (List Char × List Char)
  | c :: d :: rest =>
    if c = rbrace ∧ d = rbrace then some ([], rest)
    else
      match splitAction (d :: rest) with
      | some (a, r) => some (c :: a, r)
      | none => none
  | _ => none

/-- Drop spaces on both ends of an action text. -/
def trimSpaces (l : List Char) : List Char :=
  ((l.dropWhile (· = ' ')).reverse.dropWhile (· = ' ')).reverse

/-- A parsed template node as template.Parse produces for the fragment
the program uses: literal text, or a field action (a dot-prefixed name,
stored trimmed).  A field the render data does not have parses fine and
fails only when the render reaches it; a non-field action (an unknown
function) or an unclosed action is a parse error.  Identifier syntax
checks inside field names are elided. -/
inductive TmplNode where
  | lit (s : String)
  | field (name : String)
deriving DecidableEq

/-- Interpretation of one action text at parse time. -/
def parseAct (a : List Char) : Except String TmplNode :=
  match trimSpaces a with
  | [] => Except.error "missing value for command"
  | c :: rest =>
    if c = '.' then Except.ok (TmplNode.field (String.mk (c :: rest)))
    else Except.error "function not defined"

/-- Fuel-indexed template scanner; the fuel is always instantiated with the
length of the input, which suffices since every step consumes at least one
character. -/
def parseNodesAux : Nat → List Char → Except String (List TmplNode)
  | _, [] => Except.ok []
  | 0, _ :: _ => Except.error "out of fuel"
  | Nat.succ n, c :: rest =>
    match rest with
    | [] => Except.ok [TmplNode.lit (String.singleton c)]
    | d :: rest2 =>
      if c = lbrace ∧ d = lbrace then
        match splitAction rest2 with
        | none => Except.error "unclosed action"
        | some (a, r) =>
          match parseAct a with
          | Except.error e => Except.error e
          | Except.ok p =>
            match parseNodesAux n r with
            | Except.error e => Except.error e
            | Except.ok ps => Except.ok (p :: ps)
      else
        match parseNodesAux n rest with
        | Except.error e => Except.error e
        | Except.ok ps => Except.ok (TmplNode.lit (String.singleton c) :: ps)

/-- Model of template.New("html").Parse for the fragment used here. -/
def parseNodes (html : String) : Except String (List TmplNode) :=
  parseNodesAux html.data.length html.data

/-- Conversion of one parse node to a slot part, defined exactly on the
nodes the render can always evaluate: literals, and the two fields of
the render data. -/
def nodeToPart : TmplNode → Except String TmplPart
  | TmplNode.lit s => Except.ok (TmplPart.lit s)
  | TmplNode.field n =>
    if n = ".CSS" then Except.ok TmplPart.slotCSS
    else if n = ".Javascript" then Except.ok TmplPart.slotJS
    else Except.error ("can\x27t evaluate field " ++ n)

/-- Conversion of a node list to a slot part list, failing at the first
field the render could not evaluate. -/
def partsOf : List TmplNode → Except String (List TmplPart)
  | [] => Except.ok []
  | n :: rest =>
    match nodeToPart n with
    | Except.error e => Except.error e
    | Except.ok p =>
      match partsOf rest with
      | Except.error e => Except.error e
      | Except.ok ps => Except.ok (p :: ps)

/-- The templates a build can fully render: parsing succeeds and every
field action is one of the two data fields, so the render cannot fail.
The success-path theorems quantify over templates through this combined
parse and field check. -/
def parseTemplate (html : String) : Except String (List TmplPart) :=
  match parseNodes html with
  | Except.error e => Except.error e
  | Except.ok nodes => partsOf nodes

/-- Substitution of one part. -/
def renderPart (cssv jsv : String) : TmplPart → String
  | TmplPart.lit s => s
  | TmplPart.slotCSS => cssv
  | TmplPart.slotJS => jsv

/-- Model of tmpl.Execute on templates whose render cannot fail: the
literal parts pass through and the two slots are the only substitution
points. -/
def renderTemplate (parts : List TmplPart) (cssv jsv : String) : String :=
  cat (parts.map (renderPart cssv jsv))

/-- Model of tmpl.Execute on arbitrary parse nodes with the css and js
data: the nodes are written to the output sink in order; reaching a
field other than the two data fields stops the render with an error,
the bytes already written remaining in the sink.  Returns the written
bytes together with the error, if any. -/
def execNodes (cssv jsv : String) : List TmplNode → String × Option String
  | [] => ("", none)
  | TmplNode.lit s :: rest =>
    let r := execNodes cssv jsv rest
    (s ++ r.1, r.2)
  | TmplNode.field n :: rest =>
    if n = ".CSS" then
      let r := execNodes cssv jsv rest
      (cssv ++ r.1, r.2)
    else if n = ".Javascript" then
      let r := execNodes cssv jsv rest
      (jsv ++ r.1, r.2)
    else ("", some ("can\x27t evaluate field " ++ n))

/-! ### The filesystem walk and preprocess -/

/-- A file reached by the directory walk: its full path, the size reported
by the walk (info.Size), and its contents at open time, where none means
the file vanished between the walk listing it and os.Open (os.IsNotExist),
which the walk callback skips silently. -/
structure FsEntry where
  path : String
  size : Nat
  content : Option String
deriving DecidableEq

/-- The largest int of the platform (64-bit build: 2 to the 63rd minus
one), as computed by preprocess from MaxUint shifted right once. -/
def maxInt : Nat := 2 ^ 63 - 1

/-- Strict byte-wise comparison of character lists (the string order of
sort.Strings; UTF-8 byte order and code point order agree). -/
def lexLtB : List Char → List Char → Bool
  | [], [] => false
  | [], _ :: _ => true
  | _ :: _, [] => false
  | a :: as, b :: bs => if a < b then true else if b < a then false else lexLtB as bs

/-- Splitting a path at the separator into its components. -/
def splitSlashAux : List Char → List Char → List String
  | [], acc => [String.mk acc.reverse]
  | c :: rest, acc =>
    if c = '/' then String.mk acc.reverse :: splitSlashAux rest []
    else splitSlashAux rest (c :: acc)

/-- The separator-split components of a full path. -/
def pathParts (p : String) : List String := splitSlashAux p.data []

/-- Lexicographic comparison of component lists, components compared
byte-wise. -/
def compsLeB : List String → List String → Bool
  | [], _ => true
  | _ :: _, [] => false
  | a :: as, b :: bs =>
    if lexLtB a.data b.data then true
    else if lexLtB b.data a.data then false
    else compsLeB as bs

/-- The component order as a relation. -/
def compsLe (x y : List String) : Prop := compsLeB x y = true

theorem string_eq_of_data (a b : String) (h : a.data = b.data) : a = b := by
  cases a
  cases b
  exact congrArg String.mk h

theorem lexLtB_irrefl (x : List Char) : lexLtB x x = false := by
  induction x with
  | nil => rfl
  | cons a as ih => simp [lexLtB, lt_irrefl a, ih]

theorem lexLtB_eq_of_not : ∀ x y : List Char,
    lexLtB x y = false → lexLtB y x = false → x = y := by
  intro x
  induction x with
  | nil =>
    intro y h1 h2
    cases y with
    | nil => rfl
    | cons b bs => exact absurd h1 (by simp [lexLtB])
  | cons a as ih =>
    intro y h1 h2
    cases y with
    | nil => exact absurd h2 (by simp [lexLtB])
    | cons b bs =>
      by_cases hab : a < b
      · simp [lexLtB, hab] at h1
      · by_cases hba : b < a
        · simp [lexLtB, hba] at h2
        · have hEq : a = b := le_antisymm (le_of_not_lt hba) (le_of_not_lt hab)
          have ht1 : lexLtB as bs = false := by simpa [lexLtB, hab, hba] using h1
          have ht2 : lexLtB bs as = false := by simpa [lexLtB, hab, hba] using h2
          rw [hEq, ih bs ht1 ht2]

theorem lexLtB_trans : ∀ x y z : List Char,
    lexLtB x y = true → lexLtB y z = true → lexLtB x z = true := by
  intro x
  induction x with
  | nil =>
    intro y z h1 h2
    cases y with
    | nil => exact absurd h1 (by simp [lexLtB])
    | cons b bs =>
      cases z with
      | nil => exact absurd h2 (by simp [lexLtB])
      | cons c cs => rfl
  | cons a as ih =>
    intro y z h1 h2
    cases y with
    | nil => exact absurd h1 (by simp [lexLtB])
    | cons b bs =>
      cases z with
      | nil => exact absurd h2 (by simp [lexLtB])
      | cons c cs =>
        by_cases hab : a < b
        · by_cases hbc : b < c
          · simp [lexLtB, lt_trans hab hbc]
          · by_cases hcb : c < b
            · simp [lexLtB, hbc, hcb] at h2
            · have hEq : b = c := le_antisymm (le_of_not_lt hcb) (le_of_not_lt hbc)
              rw [← hEq]
              simp [lexLtB, hab]
        · by_cases hba : b < a
          · simp [lexLtB, hab, hba] at h1
          · have hEq : a = b := le_antisymm (le_of_not_lt hba) (le_of_not_lt hab)
            have ht1 : lexLtB as bs = true := by simpa [lexLtB, hab, hba] using h1
            by_cases hbc : b < c
            · have hac : a < c := hEq ▸ hbc
              simp [lexLtB, hac]
            · by_cases hcb : c < b
              · simp [lexLtB, hbc, hcb] at h2
              · have hEq2 : b = c := le_antisymm (le_of_not_lt hcb) (le_of_not_lt hbc)
                have ht2 : lexLtB bs cs = true := by simpa [lexLtB, hbc, hcb] using h2
                have hac : a = c := hEq.trans hEq2
                have hnac : ¬ a < c := by rw [hac]; exact lt_irrefl c
                have hnca : ¬ c < a := by rw [hac]; exact lt_irrefl c
                simp [lexLtB, hnac, hnca, ih bs cs ht1 ht2]

theorem compsLeB_total : ∀ x y : List String, compsLeB x y = true ∨ compsLeB y x = true := by
  intro x
  induction x with
  | nil => intro y; exact Or.inl rfl
  | cons a as ih =>
    intro y
    cases y with
    | nil => exact Or.inr rfl
    | cons b bs =>
      by_cases hab : lexLtB a.data b.data = true
      · exact Or.inl (by simp [compsLeB, hab])
      · by_cases hba : lexLtB b.data a.data = true
        · exact Or.inr (by simp [compsLeB, hba])
        · rcases ih bs with h | h
          · exact Or.inl (by simp [compsLeB, hab, hba, h])
          · exact Or.inr (by simp [compsLeB, hab, hba, h])

theorem compsLeB_trans : ∀ x y z : List String,
    compsLeB x y = true → compsLeB y z = true → compsLeB x z = true := by
  intro x
  induction x with
  | nil => intro y z _ _; rfl
  | cons a as ih =>
    intro y z h1 h2
    cases y with
    | nil => exact absurd h1 (by simp [compsLeB])
    | cons b bs =>
      cases z with
      | nil => exact absurd h2 (by simp [compsLeB])
      | cons c cs =>
        by_cases hab : lexLtB a.data b.data = true
        · by_cases hbc : lexLtB b.data c.data = true
          · simp [compsLeB, lexLtB_trans _ _ _ hab hbc]
          · by_cases hcb : lexLtB c.data b.data = true
            · simp [compsLeB, hbc, hcb] at h2
            · have hEq : b = c := string_eq_of_data b c
                (lexLtB_eq_of_not _ _ (Bool.eq_false_iff.mpr hbc) (Bool.eq_false_iff.mpr hcb))
              rw [← hEq]
              simp [compsLeB, hab]
        · by_cases hba : lexLtB b.data a.data = true
          · simp [compsLeB, hab, hba] at h1
          · have hEq : a = b := string_eq_of_data a b
              (lexLtB_eq_of_not _ _ (Bool.eq_false_iff.mpr hab) (Bool.eq_false_iff.mpr hba))
            have ht1 : compsLeB as bs = true := by simpa [compsLeB, hab, hba] using h1
            by_cases hbc : lexLtB b.data c.data = true
            · have hac : lexLtB a.data c.data = true := by rw [hEq]; exact hbc
              simp [compsLeB, hac]
            · by_cases hcb : lexLtB c.data b.data = true
              · simp [compsLeB, hbc, hcb] at h2
              · have hEq2 : b = c := string_eq_of_data b c
                  (lexLtB_eq_of_not _ _ (Bool.eq_false_iff.mpr hbc) (Bool.eq_false_iff.mpr hcb))
                have ht2 : compsLeB bs cs = true := by simpa [compsLeB, hbc, hcb] using h2
                have hnac : lexLtB a.data c.data = false := by
                  rw [hEq, hEq2]
                  exact lexLtB_irrefl c.data
                have hnca : lexLtB c.data a.data = false := by
                  rw [hEq, hEq2]
                  exact lexLtB_irrefl c.data
                simp [compsLeB, hnac, hnca, ih bs cs ht1 ht2]

/-- Path ordering used to model the visit order of filepath.Walk:
depth-first with the entries of each directory read in sorted name
order, which on full file paths is the lexicographic order of their
separator-split component lists.  On nested trees this differs from
plain lexical order of the full path string. -/
def pathLe (a b : FsEntry) : Prop := compsLe (pathParts a.path) (pathParts b.path)

instance : DecidableRel pathLe := fun a b =>
  inferInstanceAs (Decidable (compsLeB (pathParts a.path) (pathParts b.path) = true))

instance : IsTotal FsEntry pathLe := ⟨fun a b => compsLeB_total _ _⟩

instance : IsTrans FsEntry pathLe := ⟨fun _ _ _ h₁ h₂ => compsLeB_trans _ _ _ h₁ h₂⟩

/-- The order in which the walk visits the files (filepath.Walk reads
each directory in sorted name order and recurses depth-first). -/
def walkFiles (fs : List FsEntry) : List FsEntry := List.insertionSort pathLe fs

/-- Translation of the walk callback body: a .js file appends to the js
buffer, a .css file to the css buffer (case-insensitive extension), any
other path is ignored; a vanished file is skipped; a file whose reported
size reaches maxInt aborts the walk with an error. -/
def walkStep (acc : String × String) (e : FsEntry) : Except String (String × String) :=
  let ext := lowerStr (goExt e.path)
  if ext == ".js" || ext == ".css" then
    match e.content with
    | none => Except.ok acc
    | some c =>
      if maxInt ≤ e.size then
        Except.error ("Files larger than " ++ toString maxInt ++ " are not supported.")
      else if ext == ".js" then Except.ok (acc.1, acc.2 ++ c)
      else Except.ok (acc.1 ++ c, acc.2)
  else Except.ok acc

/-- The walk itself: the callback applied to each visited file in order,
stopping at the first error. -/
def walkAll : List FsEntry → String × String → Except String (String × String)
  | [], acc => Except.ok acc
  | e :: rest, acc =>
    match walkStep acc e with
    | Except.error m => Except.error m
    | Except.ok acc2 => walkAll rest acc2

/-- Opening tag written into the css buffer before the walk. -/
def styleOpen : String := "<style type=\"text/css\">"

/-- Opening tag written into the js buffer before the walk. -/
def scriptOpen : String := "<script type=\"text/javascript\">"

/-- Text of the hot reload snippet before the port number. -/
def hotReloadA : String :=
  "\n(function () \x7b\n    window.addEventListener(\"load\", function(evt) \x7b\n        var socket = new WebSocket(\x27ws://localhost:"

/-- Text of the hot reload snippet after the port number. -/
def hotReloadB : String :=
  "/wpphotreload\x27);\n        socket.addEventListener(\x27message\x27, function(wsevt) \x7b\n            if (wsevt.data === \x27reload\x27) \x7b\n                console.log(\"File change detected, reloading page.\");\n                window.location.reload(true);\n            \x7d\n        \x7d);\n    \x7d);\n\x7d)()"

/-- The ProgHotReloadCode template rendered at the given port (its single
action is the port value; the constant template always parses). -/
def hotReloadCode (port : Nat) : String := hotReloadA ++ toString port ++ hotReloadB

/-- Translation of preprocess, exposing the bytes written to the output
sink together with the error: parse the html template, walk the input
directory accumulating the css and js buffers (seeded with their opening
tags), append the hot reload snippet to the js buffer when a reload port
is configured, close both tags, and execute the template against the two
buffers.  A parse or walk failure writes nothing; an execute failure
leaves the partial render in the sink; success leaves the full render. -/
def preprocessOut (fs : List FsEntry) (html : String) (reloadPort : Nat) :
    String × Option String :=
  match parseNodes html with
  | Except.error e => ("", some e)
  | Except.ok nodes =>
    match walkAll (walkFiles fs) (styleOpen, scriptOpen) with
    | Except.error e => ("", some e)
    | Except.ok acc =>
      let jsB := if reloadPort > 0 then acc.2 ++ hotReloadCode reloadPort else acc.2
      execNodes (acc.1 ++ "</style>") (jsB ++ "</script>") nodes

/-- The error view of preprocess (its Go return value), a successful run
carrying the full rendered output. -/
def preprocess (fs : List FsEntry) (html : String) (reloadPort : Nat) : Except String String :=
  match preprocessOut fs html reloadPort with
  | (_, some e) => Except.error e
  | (s, none) => Except.ok s

/-- True exactly on an error result. -/
def isErr : Except String String → Bool
  | Except.error _ => true
  | Except.ok _ => false

/-! ### The build goroutine (outfile configured)

Translation of the body dispatched by the loop when OptOutfile is set:
the output file is truncated to zero and rewound before preprocess runs,
so the previously persisted bytes are discarded up front; on preprocess
success the rendered bytes are the new file contents; on preprocess
failure the error is logged and the file is left as truncated (empty);
in every case the goroutine finally sends the build-completion signal on
the ready channel.  (Serving, browser opening and the reload web socket
are the excluded ReloadNotifier collaborator and are not modelled.) -/

/-- Observable outcome of one dispatched build. -/
structure BuildResult where
  fileBytes : String
  errLogged : Bool
  readySent : Bool
deriving DecidableEq

/-- One run of the build goroutine, starting from the previously
persisted artifact bytes.  The truncate happens before preprocess, hence
the previous bytes never survive into the outcome: the file afterwards
holds exactly what the run wrote to it (the full render on success, a
partial render on an execute failure, nothing on a parse or walk
failure). -/
def runBuild (prev : String) (fs : List FsEntry) (html : String) (devport : Nat) : BuildResult :=
  match preprocessOut fs html devport with
  | (written, none) => ⟨written, false, true⟩
  | (written, some _) => ⟨written, true, true⟩

/-! ### Template loading and the dev-mode event loop -/

/-- Translation of loadHtml: the argument is the state of the template
file at read time (none when os.Stat reports it missing or the read
fails); on failure an error is returned together with the zero-value
empty string. -/
def loadHtml : Option String → Except String String
  | none => Except.error "template file does not exist"
  | some b => Except.ok b

/-- Static configuration of the loop: the compiled ignore pattern (none
when the flag is unset or its compilation failed, which disables
filtering) and whether a template file was given on the command line. -/
structure Config where
  ignore : Option (String → Bool)
  hasTemplate : Bool

/-- The mutable loop state: the isReady, pending and interrupted flags of
the dev-mode loop, the currently loaded template text, and a count of
errors logged by the loop body (the template reload failure log). -/
structure LoopState where
  isReady : Bool
  pending : Bool
  interrupted : Bool
  html : String
  errLogs : Nat
deriving DecidableEq

/-- A stimulus received by the select of the loop: a batch of source-tree
updates, a template-file update carrying the template file contents at
reload time, the build-completion signal on the ready channel, or the
interrupt signal. -/
inductive Stim where
  | source (us : List Update)
  | tmpl (load : Option String)
  | ready
  | interrupt
deriving DecidableEq

/-- Translation of the select branches of the loop body. -/
def applyStim (cfg : Config) (s : LoopState) : Stim → LoopState
  | Stim.source us => { s with pending := scanBatch cfg.ignore s.pending us }
  | Stim.tmpl load =>
    if cfg.hasTemplate then
      match loadHtml load with
      | Except.ok t => { s with pending := true, html := t }
      | Except.error _ => { s with pending := true, html := "", errLogs := s.errLogs + 1 }
    else { s with pending := true }
  | Stim.ready => { s with isReady := true }
  | Stim.interrupt => { s with interrupted := true }

/-- Translation of the dispatch check after the select: when isReady and
pending hold and no interrupt has been observed, both flags flip and one
build is dispatched. -/
def tick (s : LoopState) : LoopState × Bool :=
  if s.isReady && s.pending && !s.interrupted then
    ({ s with isReady := false, pending := false }, true)
  else (s, false)

/-- One full iteration of the loop body on one stimulus. -/
def step (cfg : Config) (s : LoopState) (st : Stim) : LoopState × Bool :=
  tick (applyStim cfg s st)

/-- The loop: it runs while not interrupted, consuming stimuli in order,
and returns the final state together with the number of builds
dispatched; once interrupted it consumes nothing further. -/
def runLoop (cfg : Config) : LoopState → List Stim → LoopState × Nat
  | s, [] => (s, 0)
  | s, st :: rest =>
    if s.interrupted then (s, 0)
    else
      let p := step cfg s st
      let q := runLoop cfg p.1 rest
      (q.1, (if p.2 then 1 else 0) + q.2)

/-- The loop state at entry of the dev-mode loop. -/
def initLoop (html : String) : LoopState := ⟨true, false, false, html, 0⟩

/-! ### The scheduler as a labelled transition system

For the invariants over SourceChanged, TemplateChanged and BuildCompleted
stimuli the loop is paired with a ghost count of builds in flight:
dispatching increments it, and the completion signal, which in the running
program is sent exactly once per dispatched build, decrements it and hence
requires one build to be in flight. -/

/-- Loop state plus the ghost count of dispatched, not yet completed
builds. -/
structure Sys where
  st : LoopState
  inFlight : Nat
deriving DecidableEq

/-- Numeric value of a dispatch flag. -/
def dispatchCount (b : Bool) : Nat := if b then 1 else 0

/-- Initial system: fresh loop state, no build in flight. -/
def initSys (html : String) : Sys := ⟨initLoop html, 0⟩

/-- One transition of the instrumented loop, for the three stimuli the
scheduler claims quantify over (no interrupt).  A completion signal can
only occur with a build in flight. -/
inductive SysStep (cfg : Config) : Sys → Sys → Prop where
  | source (us : List Update) (s : Sys) :
      SysStep cfg s ⟨(step cfg s.st (Stim.source us)).1,
        s.inFlight + dispatchCount (step cfg s.st (Stim.source us)).2⟩
  | tmpl (load : Option String) (s : Sys) :
      SysStep cfg s ⟨(step cfg s.st (Stim.tmpl load)).1,
        s.inFlight + dispatchCount (step cfg s.st (Stim.tmpl load)).2⟩
  | ready (s : Sys) (h : 1 ≤ s.inFlight) :
      SysStep cfg s ⟨(step cfg s.st Stim.ready).1,
        (s.inFlight - 1) + dispatchCount (step cfg s.st Stim.ready).2⟩

/-- States reachable by the instrumented loop from the initial system. -/
def Reachable (cfg : Config) (html : String) (s : Sys) : Prop :=
  Relation.ReflTransGen (SysStep cfg) (initSys html) s

/-! ### Basic facts about the loop body -/

theorem applyStim_isReady (cfg : Config) (s : LoopState) (st : Stim) (h : st ≠ Stim.ready) :
    (applyStim cfg s st).isReady = s.isReady := by
  cases st with
  | source us => rfl
  | tmpl load => cases hb : cfg.hasTemplate <;> cases load <;> simp [applyStim, loadHtml, hb]
  | ready => exact absurd rfl h
  | interrupt => rfl

theorem applyStim_interrupted (cfg : Config) (s : LoopState) (st : Stim)
    (h : st ≠ Stim.interrupt) :
    (applyStim cfg s st).interrupted = s.interrupted := by
  cases st with
  | source us => rfl
  | tmpl load => cases hb : cfg.hasTemplate <;> cases load <;> simp [applyStim, loadHtml, hb]
  | ready => rfl
  | interrupt => exact absurd rfl h

theorem tick_snd (s : LoopState) :
    (tick s).2 = (s.isReady && s.pending && !s.interrupted) := by
  simp only [tick]
  split <;> simp_all

theorem tick_pos (s : LoopState) (h : (s.isReady && s.pending && !s.interrupted) = true) :
    tick s = ({ s with isReady := false, pending := false }, true) := by
  simp [tick, h]

theorem tick_neg (s : LoopState) (h : (s.isReady && s.pending && !s.interrupted) = false) :
    tick s = (s, false) := by
  simp [tick, h]

/-! ### The scheduler invariant -/

theorem preserve_change (cfg : Config) (s : Sys) (st : Stim)
    (hr : st ≠ Stim.ready) (hi : st ≠ Stim.interrupt)
    (ha1 : s.inFlight = if s.st.isReady then 0 else 1)
    (ha2 : s.st.interrupted = false) :
    (s.inFlight + dispatchCount (step cfg s.st st).2
        = if (step cfg s.st st).1.isReady then 0 else 1)
      ∧ (step cfg s.st st).1.interrupted = false := by
  have hx1 : (applyStim cfg s.st st).isReady = s.st.isReady := applyStim_isReady cfg s.st st hr
  have hx2 : (applyStim cfg s.st st).interrupted = false := by
    rw [applyStim_interrupted cfg s.st st hi, ha2]
  by_cases hd : ((applyStim cfg s.st st).isReady && (applyStim cfg s.st st).pending
      && !(applyStim cfg s.st st).interrupted) = true
  · have hstep : step cfg s.st st
        = ({ applyStim cfg s.st st with isReady := false, pending := false }, true) := by
      rw [step, tick_pos _ hd]
    simp only [Bool.and_eq_true] at hd
    have hready : s.st.isReady = true := by rw [← hx1]; exact hd.1.1
    rw [hstep]
    constructor
    · simp [dispatchCount, ha1, hready]
    · exact hx2
  · have hstep : step cfg s.st st = (applyStim cfg s.st st, false) := by
      rw [step, tick_neg _ (Bool.eq_false_iff.mpr hd)]
    rw [hstep]
    constructor
    · simp [dispatchCount, ha1, hx1]
    · exact hx2

theorem preserve_ready (cfg : Config) (s : Sys)
    (hge : 1 ≤ s.inFlight)
    (ha1 : s.inFlight = if s.st.isReady then 0 else 1)
    (ha2 : s.st.interrupted = false) :
    (s.inFlight - 1 + dispatchCount (step cfg s.st Stim.ready).2
        = if (step cfg s.st Stim.ready).1.isReady then 0 else 1)
      ∧ (step cfg s.st Stim.ready).1.interrupted = false := by
  have hbr : s.st.isReady = false := by
    cases hy : s.st.isReady
    · rfl
    · rw [ha1, hy] at hge
      exact absurd hge (by simp)
  have hfl : s.inFlight = 1 := by rw [ha1, hbr]; simp
  have hx : applyStim cfg s.st Stim.ready = { s.st with isReady := true } := rfl
  cases hp : s.st.pending
  · have hc : ((applyStim cfg s.st Stim.ready).isReady && (applyStim cfg s.st Stim.ready).pending
        && !(applyStim cfg s.st Stim.ready).interrupted) = false := by
      rw [hx]; simp [hp]
    have hstep : step cfg s.st Stim.ready = (applyStim cfg s.st Stim.ready, false) := by
      rw [step, tick_neg _ hc]
    rw [hstep, hx, hfl]
    exact ⟨by simp [dispatchCount], ha2⟩
  · have hc : ((applyStim cfg s.st Stim.ready).isReady && (applyStim cfg s.st Stim.ready).pending
        && !(applyStim cfg s.st Stim.ready).interrupted) = true := by
      rw [hx]; simp [hp, ha2]
    have hstep : step cfg s.st Stim.ready
        = ({ applyStim cfg s.st Stim.ready with isReady := false, pending := false }, true) := by
      rw [step, tick_pos _ hc]
    rw [hstep, hx, hfl]
    exact ⟨by simp [dispatchCount], ha2⟩

theorem reachable_invariant (cfg : Config) (html : String) (s : Sys) (h : Reachable cfg html s) :
    (s.inFlight = if s.st.isReady then 0 else 1) ∧ s.st.interrupted = false := by
  induction h with
  | refl => exact ⟨rfl, rfl⟩
  | tail hpre hstep ih =>
    cases hstep with
    | source us => exact preserve_change cfg _ (Stim.source us) (by simp) (by simp) ih.1 ih.2
    | tmpl load => exact preserve_change cfg _ (Stim.tmpl load) (by simp) (by simp) ih.1 ih.2
    | ready =>
      rename_i hge
      exact preserve_ready cfg _ hge ih.1 ih.2

/-- Claim C2: along any run of SourceChanged, TemplateChanged and
BuildCompleted stimuli, at most one build is in flight at any instant
(and in flight coincides with isReady being false); a build is dispatched
at a stimulus exactly when isReady and pending both hold after the
stimulus is applied; a dispatch clears pending and drops isReady; and
isReady stays false across any non-completion stimulus. -/
theorem c2_scheduler_invariant (cfg : Config) (html : String) (s : Sys) (st : Stim)
    (h : Reachable cfg html s) (hst : st ≠ Stim.interrupt) :
    s.inFlight ≤ 1 ∧
    (s.inFlight = if s.st.isReady then 0 else 1) ∧
    ((step cfg s.st st).2 = true ↔
      ((applyStim cfg s.st st).isReady = true ∧ (applyStim cfg s.st st).pending = true)) ∧
    ((step cfg s.st st).2 = true →
      ((step cfg s.st st).1.isReady = false ∧ (step cfg s.st st).1.pending = false)) ∧
    ((st ≠ Stim.ready ∧ s.st.isReady = false) → (step cfg s.st st).1.isReady = false) := by
  obtain ⟨h1, h2⟩ := reachable_invariant cfg html s h
  refine ⟨?_, h1, ?_, ?_, ?_⟩
  · rw [h1]; split <;> simp
  · have hx2 : (applyStim cfg s.st st).interrupted = false := by
      rw [applyStim_interrupted cfg s.st st hst, h2]
    rw [step, tick_snd, hx2]
    simp [Bool.and_eq_true]
  · intro hd
    have hc : ((applyStim cfg s.st st).isReady && (applyStim cfg s.st st).pending
        && !(applyStim cfg s.st st).interrupted) = true := by
      rw [step, tick_snd] at hd; exact hd
    rw [step, tick_pos _ hc]
    exact ⟨rfl, rfl⟩
  · rintro ⟨hr, hready⟩
    have hx1 : (applyStim cfg s.st st).isReady = false := by
      rw [applyStim_isReady cfg s.st st hr, hready]
    have hc : ((applyStim cfg s.st st).isReady && (applyStim cfg s.st st).pending
        && !(applyStim cfg s.st st).interrupted) = false := by
      simp [hx1]
    rw [step, tick_neg _ hc]
    exact hx1

/-- Witness for C2 at the initial state and a template-change stimulus. -/
theorem c2_scheduler_invariant_witness :
    (initSys "").inFlight ≤ 1 ∧
    ((initSys "").inFlight = if (initSys "").st.isReady then 0 else 1) ∧
    ((step ⟨none, true⟩ (initSys "").st (Stim.tmpl none)).2 = true ↔
      ((applyStim ⟨none, true⟩ (initSys "").st (Stim.tmpl none)).isReady = true ∧
        (applyStim ⟨none, true⟩ (initSys "").st (Stim.tmpl none)).pending = true)) ∧
    ((step ⟨none, true⟩ (initSys "").st (Stim.tmpl none)).2 = true →
      ((step ⟨none, true⟩ (initSys "").st (Stim.tmpl none)).1.isReady = false ∧
        (step ⟨none, true⟩ (initSys "").st (Stim.tmpl none)).1.pending = false)) ∧
    ((Stim.tmpl none ≠ Stim.ready ∧ (initSys "").st.isReady = false) →
      (step ⟨none, true⟩ (initSys "").st (Stim.tmpl none)).1.isReady = false) :=
  c2_scheduler_invariant ⟨none, true⟩ "" (initSys "") (Stim.tmpl none)
    Relation.ReflTransGen.refl (by simp)

/-! ### Dispatch counting and debouncing -/

/-- A change stimulus (source batch or template update). -/
def isChange : Stim → Bool
  | Stim.source _ => true
  | Stim.tmpl _ => true
  | _ => false

/-- Whether a stimulus marks a rebuild pending: a source batch does when
it holds a relevant update, a template update always does. -/
def stimRelevant (cfg : Config) : Stim → Bool
  | Stim.source us => batchRelevant cfg.ignore us
  | Stim.tmpl _ => true
  | _ => false

theorem applyStim_pending_change (cfg : Config) (s : LoopState) (st : Stim)
    (h : isChange st = true) :
    (applyStim cfg s st).pending = (s.pending || stimRelevant cfg st) := by
  cases st with
  | source us => simp [applyStim, stimRelevant, scanBatch_eq]
  | tmpl load => cases hb : cfg.hasTemplate <;> cases load <;>
      simp [applyStim, loadHtml, hb, stimRelevant]
  | ready => exact absurd h (by simp [isChange])
  | interrupt => exact absurd h (by simp [isChange])

theorem runLoop_le (cfg : Config) (l : List Stim) :
    ∀ s : LoopState, (runLoop cfg s l).2 ≤ l.length := by
  induction l with
  | nil => intro s; exact Nat.le_refl 0
  | cons st rest ih =>
    intro s
    show (runLoop cfg s (st :: rest)).2 ≤ rest.length + 1
    rw [runLoop]
    by_cases hi : s.interrupted = true
    · simp [hi]
    · rw [if_neg hi]
      have h2 := ih (step cfg s st).1
      show (if (step cfg s st).2 = true then 1 else 0)
          + (runLoop cfg (step cfg s st).1 rest).2 ≤ rest.length + 1
      cases hd : (step cfg s st).2 <;> simp [hd] <;> omega

theorem runLoop_building (cfg : Config) (changes : List Stim) :
    ∀ s : LoopState, s.isReady = false → s.interrupted = false →
    (∀ st ∈ changes, isChange st = true) →
    (runLoop cfg s (changes ++ [Stim.ready])).2
        = (if (s.pending || changes.any (stimRelevant cfg)) then 1 else 0)
      ∧ (runLoop cfg s (changes ++ [Stim.ready])).1.pending = false
      ∧ (runLoop cfg s (changes ++ [Stim.ready])).1.interrupted = false
      ∧ (runLoop cfg s (changes ++ [Stim.ready])).1.isReady
          = (if (s.pending || changes.any (stimRelevant cfg)) then false else true) := by
  induction changes with
  | nil =>
    intro s h1 h2 _
    have hx : applyStim cfg s Stim.ready = { s with isReady := true } := rfl
    cases hp : s.pending
    · have hc : ((applyStim cfg s Stim.ready).isReady && (applyStim cfg s Stim.ready).pending
          && !(applyStim cfg s Stim.ready).interrupted) = false := by
        rw [hx]; simp [hp]
      have hstep : step cfg s Stim.ready = ({ s with isReady := true }, false) := by
        rw [step, tick_neg _ hc, hx]
      simp [runLoop, h2, hstep, hp]
    · have hc : ((applyStim cfg s Stim.ready).isReady && (applyStim cfg s Stim.ready).pending
          && !(applyStim cfg s Stim.ready).interrupted) = true := by
        rw [hx]; simp [hp, h2]
      have hstep : step cfg s Stim.ready
          = ({ s with isReady := false, pending := false }, true) := by
        rw [step, tick_pos _ hc]
        rfl
      simp [runLoop, h2, hstep, hp]
  | cons st rest ih =>
    intro s h1 h2 hall
    have hch : isChange st = true := hall st (List.mem_cons_self st rest)
    have hrest : ∀ x ∈ rest, isChange x = true := fun x hx => hall x (List.mem_cons_of_mem st hx)
    have hnr : st ≠ Stim.ready := by
      intro he; rw [he] at hch; exact absurd hch (by simp [isChange])
    have hni : st ≠ Stim.interrupt := by
      intro he; rw [he] at hch; exact absurd hch (by simp [isChange])
    have hx1 : (applyStim cfg s st).isReady = false := by
      rw [applyStim_isReady cfg s st hnr, h1]
    have hx2 : (applyStim cfg s st).interrupted = false := by
      rw [applyStim_interrupted cfg s st hni, h2]
    have hx3 : (applyStim cfg s st).pending = (s.pending || stimRelevant cfg st) :=
      applyStim_pending_change cfg s st hch
    have hc : ((applyStim cfg s st).isReady && (applyStim cfg s st).pending
        && !(applyStim cfg s st).interrupted) = false := by simp [hx1]
    have hstep : step cfg s st = (applyStim cfg s st, false) := by
      rw [step, tick_neg _ hc]
    have hrec := ih (applyStim cfg s st) hx1 hx2 hrest
    rw [hx3] at hrec
    have hunfold : runLoop cfg s ((st :: rest) ++ [Stim.ready])
        = ((runLoop cfg (applyStim cfg s st) (rest ++ [Stim.ready])).1,
            (if false then 1 else 0) + (runLoop cfg (applyStim cfg s st) (rest ++ [Stim.ready])).2) := by
      show runLoop cfg s (st :: (rest ++ [Stim.ready])) = _
      rw [runLoop, if_neg (by rw [h2]; exact Bool.false_ne_true), hstep]
    rw [hunfold]
    simp only [if_false, Nat.zero_add]
    refine ⟨?_, hrec.2.1, hrec.2.2.1, ?_⟩
    · rw [hrec.1]
      simp [List.any_cons, Bool.or_assoc]
    · rw [hrec.2.2.2]
      simp [List.any_cons, Bool.or_assoc]

/-- Claim C3: for interleaved stimulus sequences the number of dispatched
builds never exceeds the number of stimuli; a relevant change processed
while no build is in flight dispatches exactly one build at that very
step; and a burst of changes processed while one build is in flight, at
least one of them relevant, collapses into exactly one dispatch, fired
when the completion signal is processed. -/
theorem c3_dispatch_bounds (cfg : Config) :
    (∀ (s : LoopState) (l : List Stim), (runLoop cfg s l).2 ≤ l.length) ∧
    (∀ (s : LoopState) (st : Stim), s.isReady = true → s.interrupted = false →
      stimRelevant cfg st = true → (runLoop cfg s [st]).2 = 1) ∧
    (∀ (s : LoopState) (changes : List Stim), s.isReady = false → s.interrupted = false →
      (∀ st ∈ changes, isChange st = true) → changes.any (stimRelevant cfg) = true →
      (runLoop cfg s (changes ++ [Stim.ready])).2 = 1 ∧
      (runLoop cfg s (changes ++ [Stim.ready])).1.pending = false ∧
      (runLoop cfg s (changes ++ [Stim.ready])).1.isReady = false) := by
  refine ⟨fun s l => runLoop_le cfg l s, ?_, ?_⟩
  · intro s st h1 h2 hrel
    have hch : isChange st = true := by
      cases st <;> simp_all [stimRelevant, isChange]
    have hnr : st ≠ Stim.ready := by
      intro he; rw [he] at hch; exact absurd hch (by simp [isChange])
    have hni : st ≠ Stim.interrupt := by
      intro he; rw [he] at hch; exact absurd hch (by simp [isChange])
    have hx1 : (applyStim cfg s st).isReady = true := by
      rw [applyStim_isReady cfg s st hnr, h1]
    have hx2 : (applyStim cfg s st).interrupted = false := by
      rw [applyStim_interrupted cfg s st hni, h2]
    have hx3 : (applyStim cfg s st).pending = true := by
      rw [applyStim_pending_change cfg s st hch, hrel, Bool.or_true]
    have hc : ((applyStim cfg s st).isReady && (applyStim cfg s st).pending
        && !(applyStim cfg s st).interrupted) = true := by simp [hx1, hx2, hx3]
    have hstep : step cfg s st
        = ({ applyStim cfg s st with isReady := false, pending := false }, true) := by
      rw [step, tick_pos _ hc]
    simp [runLoop, h2, hstep]
  · intro s changes h1 h2 hall hany
    have h := runLoop_building cfg changes s h1 h2 hall
    rw [hany, Bool.or_true] at h
    exact ⟨by rw [h.1]; simp, h.2.1, by rw [h.2.2.2]; simp⟩

/-- Witness for C3: the count bound on an empty run; an immediate
dispatch for a relevant source update while idle; and a two-change burst
during a build collapsing into one dispatch at completion. -/
theorem c3_dispatch_bounds_witness :
    (runLoop ⟨none, true⟩ (initLoop "") []).2 ≤ ([] : List Stim).length ∧
    (runLoop ⟨none, true⟩ (initLoop "") [Stim.source [⟨false, false, "a.js"⟩]]).2 = 1 ∧
    ((runLoop ⟨none, true⟩ ⟨false, false, false, "", 0⟩
        ([Stim.source [⟨false, false, "a.js"⟩], Stim.source [⟨false, false, "b.css"⟩]]
          ++ [Stim.ready])).2 = 1 ∧
      (runLoop ⟨none, true⟩ ⟨false, false, false, "", 0⟩
        ([Stim.source [⟨false, false, "a.js"⟩], Stim.source [⟨false, false, "b.css"⟩]]
          ++ [Stim.ready])).1.pending = false ∧
      (runLoop ⟨none, true⟩ ⟨false, false, false, "", 0⟩
        ([Stim.source [⟨false, false, "a.js"⟩], Stim.source [⟨false, false, "b.css"⟩]]
          ++ [Stim.ready])).1.isReady = false) :=
  ⟨(c3_dispatch_bounds ⟨none, true⟩).1 (initLoop "") [],
   (c3_dispatch_bounds ⟨none, true⟩).2.1 (initLoop "") (Stim.source [⟨false, false, "a.js"⟩])
     rfl rfl (by decide),
   (c3_dispatch_bounds ⟨none, true⟩).2.2 ⟨false, false, false, "", 0⟩
     [Stim.source [⟨false, false, "a.js"⟩], Stim.source [⟨false, false, "b.css"⟩]]
     rfl rfl (by decide) (by decide)⟩

/-! ### Shutdown behaviour -/

theorem runLoop_stopped (cfg : Config) (s : LoopState) (l : List Stim)
    (h : s.interrupted = true) : runLoop cfg s l = (s, 0) := by
  cases l with
  | nil => rfl
  | cons st rest => rw [runLoop, if_pos h]

/-- Counterexample to claim C4: with a build in flight (isReady false)
and the completion signal available right after the interrupt, the loop
exits without consuming the completion signal: the final state still has
isReady false (the build was never observed to finish) and zero builds
were dispatched.  The loop therefore does not wait for the in-flight
build to complete. -/
theorem c4_counterexample :
    (runLoop ⟨none, true⟩ ⟨false, false, false, "h", 0⟩ [Stim.interrupt, Stim.ready]).1.isReady
        = false ∧
    (runLoop ⟨none, true⟩ ⟨false, false, false, "h", 0⟩ [Stim.interrupt, Stim.ready]).1.interrupted
        = true ∧
    (runLoop ⟨none, true⟩ ⟨false, false, false, "h", 0⟩ [Stim.interrupt, Stim.ready]).2 = 0 := by
  decide

/-- Claim C4 as amended: when the interrupt stimulus is processed, the
loop marks itself interrupted, dispatches no build at that step, consumes
no further stimuli, and exits immediately with every other field of the
state unchanged; in particular it does not wait for an in-flight build
(isReady keeps its value) and starts no build after shutdown begins. -/
theorem c4_amended (cfg : Config) (s : LoopState) (rest : List Stim)
    (h : s.interrupted = false) :
    runLoop cfg s (Stim.interrupt :: rest) = ({ s with interrupted := true }, 0) := by
  have hc : ((applyStim cfg s Stim.interrupt).isReady && (applyStim cfg s Stim.interrupt).pending
      && !(applyStim cfg s Stim.interrupt).interrupted) = false := by
    simp [applyStim]
  have hstep : step cfg s Stim.interrupt = ({ s with interrupted := true }, false) := by
    rw [step, tick_neg _ hc]
    rfl
  rw [runLoop, if_neg (by rw [h]; exact Bool.false_ne_true)]
  show ((runLoop cfg (step cfg s Stim.interrupt).1 rest).1,
      (if (step cfg s Stim.interrupt).2 = true then 1 else 0)
        + (runLoop cfg (step cfg s Stim.interrupt).1 rest).2) = _
  rw [hstep]
  simp [runLoop_stopped cfg { s with interrupted := true } rest rfl]

/-- Witness for C4 as amended: an interrupt while a build is in flight. -/
theorem c4_amended_witness :
    runLoop ⟨none, true⟩ ⟨false, true, false, "h", 2⟩ [Stim.interrupt, Stim.ready]
      = (⟨false, true, true, "h", 2⟩, 0) :=
  c4_amended ⟨none, true⟩ ⟨false, true, false, "h", 2⟩ [Stim.ready] rfl

/-! ### The change classifier -/

/-- Claim C5: a single source-tree event marks a rebuild pending exactly
when it is not a directory, was not a removal, its name does not match
the configured exclusion pattern, and its lower-cased extension is .js or
.css; a template event always marks a rebuild pending. -/
theorem c5_classifier (cfg : Config) (s : LoopState) (u : Update) (load : Option String)
    (hp : s.pending = false) :
    ((applyStim cfg s (Stim.source [u])).pending = true ↔
      (u.isDir = false ∧ u.wasRemoved = false ∧
        (∀ m, cfg.ignore = some m → m u.name = false) ∧
        (lowerStr (goExt u.name) = ".js" ∨ lowerStr (goExt u.name) = ".css"))) ∧
    (applyStim cfg s (Stim.tmpl load)).pending = true := by
  constructor
  · have h1 : (applyStim cfg s (Stim.source [u])).pending = relevantUpdate cfg.ignore u := by
      show scanBatch cfg.ignore s.pending [u] = _
      rw [scanBatch_eq, hp]
      simp [batchRelevant]
    rw [h1]
    cases hig : cfg.ignore with
    | none => simp [relevantUpdate, hig, Bool.not_eq_true', and_assoc]
    | some m => simp [relevantUpdate, hig, Bool.not_eq_true', and_assoc]
  · cases hb : cfg.hasTemplate <;> cases load <;> simp [applyStim, loadHtml, hb]

/-- Witness for C5: a plain .js change and a template change, both from a
quiet state, mark a rebuild pending. -/
theorem c5_classifier_witness :
    (applyStim ⟨none, true⟩ (initLoop "") (Stim.source [⟨false, false, "a.js"⟩])).pending = true ∧
    (applyStim ⟨none, true⟩ (initLoop "") (Stim.tmpl none)).pending = true := by
  have h := c5_classifier ⟨none, true⟩ (initLoop "") ⟨false, false, "a.js"⟩ none rfl
  refine ⟨h.1.mpr ⟨rfl, rfl, fun m hm => Option.noConfusion hm, Or.inl (by decide)⟩, h.2⟩

/-! ### Template reload failure -/

/-- Counterexample to claim C7: when reloading the template fails, the
previously loaded template text is not retained; the loop state ends up
with the empty string in its place. -/
theorem c7_counterexample :
    (applyStim ⟨none, true⟩ ⟨true, false, false, "previous", 0⟩ (Stim.tmpl none)).html
      ≠ "previous" := by
  decide

/-- Claim C7 as amended: when reloading the template after a
TemplateChanged stimulus fails, the failure is reported as a log line
only and the live loop continues (the interrupted and isReady flags are
untouched and a rebuild is still marked pending), but the loaded template
text is replaced by the empty string returned alongside the error, not
retained, so subsequent builds render the empty template. -/
theorem c7_amended (cfg : Config) (s : LoopState) (hc : cfg.hasTemplate = true) :
    (applyStim cfg s (Stim.tmpl none)).html = "" ∧
    (applyStim cfg s (Stim.tmpl none)).errLogs = s.errLogs + 1 ∧
    (applyStim cfg s (Stim.tmpl none)).interrupted = s.interrupted ∧
    (applyStim cfg s (Stim.tmpl none)).isReady = s.isReady ∧
    (applyStim cfg s (Stim.tmpl none)).pending = true := by
  simp [applyStim, hc, loadHtml]

/-- Witness for C7 as amended. -/
theorem c7_amended_witness :
    (applyStim ⟨none, true⟩ ⟨true, false, false, "previous", 0⟩ (Stim.tmpl none)).html = "" ∧
    (applyStim ⟨none, true⟩ ⟨true, false, false, "previous", 0⟩ (Stim.tmpl none)).errLogs = 0 + 1 ∧
    (applyStim ⟨none, true⟩ ⟨true, false, false, "previous", 0⟩ (Stim.tmpl none)).interrupted
      = false ∧
    (applyStim ⟨none, true⟩ ⟨true, false, false, "previous", 0⟩ (Stim.tmpl none)).isReady = true ∧
    (applyStim ⟨none, true⟩ ⟨true, false, false, "previous", 0⟩ (Stim.tmpl none)).pending = true :=
  c7_amended ⟨none, true⟩ ⟨true, false, false, "previous", 0⟩ rfl

/-! ### Walk and preprocess lemmas -/

/-- The content a file contributes to the css buffer, if any. -/
def cssSelect (e : FsEntry) : Option String :=
  if lowerStr (goExt e.path) == ".css" then e.content else none

/-- The content a file contributes to the js buffer, if any. -/
def jsSelect (e : FsEntry) : Option String :=
  if lowerStr (goExt e.path) == ".js" then e.content else none

/-- Concatenated css contents in walk order. -/
def cssConcat (fs : List FsEntry) : String := cat ((walkFiles fs).filterMap cssSelect)

/-- Concatenated js contents in walk order. -/
def jsConcat (fs : List FsEntry) : String := cat ((walkFiles fs).filterMap jsSelect)

/-- The complete css buffer as rendered into the CSS slot. -/
def cssWrapped (fs : List FsEntry) : String := styleOpen ++ cssConcat fs ++ "</style>"

/-- The complete js buffer as rendered into the Javascript slot. -/
def jsWrapped (fs : List FsEntry) (port : Nat) : String :=
  (if port > 0 then scriptOpen ++ jsConcat fs ++ hotReloadCode port
   else scriptOpen ++ jsConcat fs) ++ "</script>"

/-- The string big contains the string small verbatim. -/
def containsStr (big small : String) : Prop := ∃ p q : String, big = p ++ (small ++ q)

theorem containsStr_cat (l : List String) (c : String) (h : c ∈ l) : containsStr (cat l) c :=
  cat_mem_split c l h

theorem containsStr_append_left (big post c : String) (h : containsStr big c) :
    containsStr (big ++ post) c := by
  rcases h with ⟨p, q, hq⟩
  exact ⟨p, q ++ post, by rw [hq]; simp [string_append_assoc]⟩

theorem containsStr_append_right (pre big c : String) (h : containsStr big c) :
    containsStr (pre ++ big) c := by
  rcases h with ⟨p, q, hq⟩
  exact ⟨pre ++ p, q, by rw [hq]; simp [string_append_assoc]⟩

theorem walkAll_ok (l : List FsEntry) (h : ∀ e ∈ l, e.size < maxInt) (a b : String) :
    walkAll l (a, b)
      = Except.ok (a ++ cat (l.filterMap cssSelect), b ++ cat (l.filterMap jsSelect)) := by
  induction l generalizing a b with
  | nil => simp [walkAll, cat_nil, string_append_nil]
  | cons e rest ih =>
    have hsz : e.size < maxInt := h e (List.mem_cons_self e rest)
    have hrest : ∀ x ∈ rest, x.size < maxInt := fun x hx => h x (List.mem_cons_of_mem e hx)
    have hnle : ¬ (maxInt ≤ e.size) := Nat.not_le.mpr hsz
    by_cases hjs : lowerStr (goExt e.path) = ".js"
    · have hncss : lowerStr (goExt e.path) ≠ ".css" := by rw [hjs]; decide
      cases hc : e.content with
      | none =>
        have hw : walkStep (a, b) e = Except.ok (a, b) := by
          simp [walkStep, hjs, hc]
        rw [walkAll, hw]
        show walkAll rest (a, b) = _
        rw [ih hrest]
        simp [cssSelect, jsSelect, hjs, hncss, hc]
      | some c =>
        have hw : walkStep (a, b) e = Except.ok (a, b ++ c) := by
          simp [walkStep, hjs, hc, hnle]
        rw [walkAll, hw]
        show walkAll rest (a, b ++ c) = _
        rw [ih hrest]
        simp [cssSelect, jsSelect, hjs, hncss, hc, cat_cons, string_append_assoc]
    · by_cases hcss : lowerStr (goExt e.path) = ".css"
      · cases hc : e.content with
        | none =>
          have hw : walkStep (a, b) e = Except.ok (a, b) := by
            simp [walkStep, hjs, hcss, hc]
          rw [walkAll, hw]
          show walkAll rest (a, b) = _
          rw [ih hrest]
          simp [cssSelect, jsSelect, hjs, hcss, hc]
        | some c =>
          have hw : walkStep (a, b) e = Except.ok (a ++ c, b) := by
            simp [walkStep, hjs, hcss, hc, hnle]
          rw [walkAll, hw]
          show walkAll rest (a ++ c, b) = _
          rw [ih hrest]
          simp [cssSelect, jsSelect, hjs, hcss, hc, cat_cons, string_append_assoc]
      · have hw : walkStep (a, b) e = Except.ok (a, b) := by
          simp [walkStep, hjs, hcss]
        rw [walkAll, hw]
        show walkAll rest (a, b) = _
        rw [ih hrest]
        simp [cssSelect, jsSelect, hjs, hcss]

theorem walkAll_append (t d : List FsEntry) (acc : String × String) :
    walkAll (t ++ d) acc
      = match walkAll t acc with
        | Except.error m => Except.error m
        | Except.ok acc2 => walkAll d acc2 := by
  induction t generalizing acc with
  | nil => rfl
  | cons e rest ih =>
    show walkAll (e :: (rest ++ d)) acc = _
    rw [walkAll]
    cases hw : walkStep acc e with
    | error m => simp [walkAll, hw]
    | ok acc2 => simp [walkAll, hw, ih acc2]

theorem walkAll_err (l : List FsEntry) (e : FsEntry) (he : e ∈ l)
    (hext : lowerStr (goExt e.path) = ".js" ∨ lowerStr (goExt e.path) = ".css")
    (c : String) (hc : e.content = some c) (hsz : maxInt ≤ e.size) :
    ∀ acc : String × String, ∃ m, walkAll l acc = Except.error m := by
  induction l with
  | nil => cases he
  | cons x t ih =>
    intro acc
    rcases List.mem_cons.mp he with hex | ht
    · have hm : walkStep acc x
          = Except.error ("Files larger than " ++ toString maxInt ++ " are not supported.") := by
        rw [← hex]
        rcases hext with hx | hx <;> simp [walkStep, hx, hc, hsz]
      exact ⟨_, by rw [walkAll, hm]⟩
    · cases hw : walkStep acc x with
      | error m => exact ⟨m, by rw [walkAll, hw]⟩
      | ok acc2 =>
        rcases ih ht acc2 with ⟨m, hm⟩
        exact ⟨m, by rw [walkAll, hw]; exact hm⟩

theorem mem_walkFiles (fs : List FsEntry) (e : FsEntry) (h : e ∈ fs) : e ∈ walkFiles fs :=
  (List.perm_insertionSort pathLe fs).symm.mem_iff.mp h

theorem parseTemplate_inv (html : String) (parts : List TmplPart)
    (h : parseTemplate html = Except.ok parts) :
    ∃ nodes, parseNodes html = Except.ok nodes ∧ partsOf nodes = Except.ok parts := by
  unfold parseTemplate at h
  cases hn : parseNodes html with
  | error e => rw [hn] at h; exact Except.noConfusion h
  | ok nodes => rw [hn] at h; exact ⟨nodes, rfl, h⟩

theorem execNodes_of_parts : ∀ (nodes : List TmplNode) (parts : List TmplPart),
    partsOf nodes = Except.ok parts → ∀ c j : String,
    execNodes c j nodes = (renderTemplate parts c j, none) := by
  intro nodes
  induction nodes with
  | nil =>
    intro parts h c j
    cases h
    rfl
  | cons n rest ih =>
    intro parts h c j
    cases hn : nodeToPart n with
    | error e => rw [partsOf, hn] at h; exact Except.noConfusion h
    | ok p =>
      cases hr : partsOf rest with
      | error e => rw [partsOf, hn, hr] at h; exact Except.noConfusion h
      | ok ps =>
        rw [partsOf, hn, hr] at h
        cases h
        cases n with
        | lit s =>
          have hp : TmplPart.lit s = p := by
            have := hn
            rw [nodeToPart] at this
            exact Except.ok.inj this
          rw [← hp]
          show (s ++ (execNodes c j rest).1, (execNodes c j rest).2) = _
          rw [ih ps hr c j]
          rfl
        | field nm =>
          by_cases hcss : nm = ".CSS"
          · have hp : TmplPart.slotCSS = p := by
              have := hn
              rw [nodeToPart] at this
              rw [if_pos hcss] at this
              exact Except.ok.inj this
            rw [← hp]
            show execNodes c j (TmplNode.field nm :: rest) = _
            rw [execNodes, if_pos hcss, ih ps hr c j]
            rfl
          · by_cases hjs : nm = ".Javascript"
            · have hp : TmplPart.slotJS = p := by
                have := hn
                rw [nodeToPart] at this
                rw [if_neg hcss, if_pos hjs] at this
                exact Except.ok.inj this
              rw [← hp]
              show execNodes c j (TmplNode.field nm :: rest) = _
              rw [execNodes, if_neg hcss, if_pos hjs, ih ps hr c j]
              rfl
            · rw [nodeToPart, if_neg hcss, if_neg hjs] at hn
              exact Except.noConfusion hn

theorem preprocess_ok (fs : List FsEntry) (html : String) (port : Nat) (parts : List TmplPart)
    (hp : parseTemplate html = Except.ok parts)
    (hs : ∀ e ∈ fs, e.size < maxInt) :
    preprocess fs html port
      = Except.ok (renderTemplate parts (cssWrapped fs) (jsWrapped fs port)) := by
  rcases parseTemplate_inv html parts hp with ⟨nodes, hn, hparts⟩
  have hs2 : ∀ e ∈ walkFiles fs, e.size < maxInt := fun e he =>
    hs e ((List.perm_insertionSort pathLe fs).mem_iff.mp he)
  have hw := walkAll_ok (walkFiles fs) hs2 styleOpen scriptOpen
  have hexec := execNodes_of_parts nodes parts hparts
  by_cases hpp : port > 0 <;>
    simp [preprocess, preprocessOut, hn, hw, hpp, hexec, cssWrapped, jsWrapped,
      cssConcat, jsConcat]

theorem renderTemplate_append (l₁ l₂ : List TmplPart) (c j : String) :
    renderTemplate (l₁ ++ l₂) c j = renderTemplate l₁ c j ++ renderTemplate l₂ c j := by
  simp [renderTemplate, List.map_append, cat_append]

theorem renderTemplate_cons (p : TmplPart) (l : List TmplPart) (c j : String) :
    renderTemplate (p :: l) c j = renderPart c j p ++ renderTemplate l c j := rfl

theorem renderTemplate_two_slots (pre mid post : List TmplPart) (c j : String) :
    renderTemplate (pre ++ TmplPart.slotCSS :: mid ++ TmplPart.slotJS :: post) c j
      = renderTemplate pre c j
          ++ (c ++ (renderTemplate mid c j ++ (j ++ renderTemplate post c j))) := by
  simp [renderTemplate_append, renderTemplate_cons, renderPart, string_append_assoc]

theorem cssConcat_contains (fs : List FsEntry) (e : FsEntry) (he : e ∈ fs) (c : String)
    (hc : e.content = some c) (hext : lowerStr (goExt e.path) = ".css") :
    containsStr (cssConcat fs) c := by
  have hsel : cssSelect e = some c := by simp [cssSelect, hext, hc]
  exact containsStr_cat _ c (List.mem_filterMap.mpr ⟨e, mem_walkFiles fs e he, hsel⟩)

theorem jsConcat_contains (fs : List FsEntry) (e : FsEntry) (he : e ∈ fs) (c : String)
    (hc : e.content = some c) (hext : lowerStr (goExt e.path) = ".js") :
    containsStr (jsConcat fs) c := by
  have hsel : jsSelect e = some c := by simp [jsSelect, hext, hc]
  exact containsStr_cat _ c (List.mem_filterMap.mpr ⟨e, mem_walkFiles fs e he, hsel⟩)

theorem cssWrapped_contains (fs : List FsEntry) (e : FsEntry) (he : e ∈ fs) (c : String)
    (hc : e.content = some c) (hext : lowerStr (goExt e.path) = ".css") :
    containsStr (cssWrapped fs) c :=
  containsStr_append_left _ _ c
    (containsStr_append_right styleOpen _ c (cssConcat_contains fs e he c hc hext))

theorem jsWrapped_contains (fs : List FsEntry) (port : Nat) (e : FsEntry) (he : e ∈ fs)
    (c : String) (hc : e.content = some c) (hext : lowerStr (goExt e.path) = ".js") :
    containsStr (jsWrapped fs port) c := by
  have h1 : containsStr (scriptOpen ++ jsConcat fs) c :=
    containsStr_append_right scriptOpen _ c (jsConcat_contains fs e he c hc hext)
  by_cases hpp : port > 0
  · show containsStr ((if port > 0 then scriptOpen ++ jsConcat fs ++ hotReloadCode port
        else scriptOpen ++ jsConcat fs) ++ "</script>") c
    rw [if_pos hpp]
    exact containsStr_append_left _ _ c (containsStr_append_left _ _ c h1)
  · show containsStr ((if port > 0 then scriptOpen ++ jsConcat fs ++ hotReloadCode port
        else scriptOpen ++ jsConcat fs) ++ "</script>") c
    rw [if_neg hpp]
    exact containsStr_append_left _ _ c h1

/-! ### Claim C1: failed rebuilds -/

/-- Counterexample to claim C1: a rebuild against a template with an
unclosed action fails inside preprocess, the error is reported and the
completion stimulus fires, but the previously persisted artifact bytes
are not left untouched: the output file was truncated before preprocess
ran, so its bytes are now empty instead of the previous artifact. -/
theorem c1_counterexample :
    (runBuild "old" [] "\x7b\x7b" 8082).fileBytes ≠ "old" ∧
    (runBuild "old" [] "\x7b\x7b" 8082).errLogged = true ∧
    (runBuild "old" [] "\x7b\x7b" 8082).readySent = true := by
  refine ⟨?_, rfl, rfl⟩
  decide

/-- Claim C1 as amended: for every rebuild whose preprocess fails, the
error is reported and the build-completion stimulus still fires, but the
previously persisted artifact bytes are not preserved: the output file
is truncated before preprocessing, so afterwards it holds exactly the
bytes the failed run wrote (nothing on a parse or walk failure, the
partial render on an execute failure), independently of the previous
artifact. -/
theorem c1_amended (prev : String) (fs : List FsEntry) (html : String) (port : Nat) (m : String)
    (h : (preprocessOut fs html port).2 = some m) :
    runBuild prev fs html port = ⟨(preprocessOut fs html port).1, true, true⟩ ∧
    runBuild prev fs html port = runBuild "" fs html port := by
  rcases hp : preprocessOut fs html port with ⟨w, err⟩
  rw [hp] at h
  have herr : err = some m := h
  subst herr
  constructor
  · simp [runBuild, hp]
  · simp [runBuild, hp]

/-- Witness for C1 as amended at a template whose render fails after a
literal: the failed build leaves the partial render in the file, not the
previous artifact. -/
theorem c1_amended_witness :
    (preprocessOut [] "X\x7b\x7b.Bogus\x7d\x7d" 8082).2
      = some "can\x27t evaluate field .Bogus" ∧
    runBuild "old" [] "X\x7b\x7b.Bogus\x7d\x7d" 8082 = ⟨"X", true, true⟩ ∧
    runBuild "old" [] "X\x7b\x7b.Bogus\x7d\x7d" 8082
      = runBuild "" [] "X\x7b\x7b.Bogus\x7d\x7d" 8082 := by
  have h := c1_amended "old" [] "X\x7b\x7b.Bogus\x7d\x7d" 8082
    "can\x27t evaluate field .Bogus" rfl
  exact ⟨rfl, by rw [h.1]; rfl, h.2⟩

/-! ### Claim C6: rendering -/

/-- Claim C6: for a source tree whose file sizes are within the limit
and a template that parses with a CSS slot placed before a Javascript
slot, the build succeeds and its output is the template literals with
the style-wrapped css buffer at the CSS slot and the script-wrapped js
buffer at the Javascript slot, and only there, so the css buffer occurs
before the js buffer in the output; the contents of every css and js
file occur verbatim inside their buffers. -/
theorem c6_render (fs : List FsEntry) (html : String) (port : Nat)
    (pre mid post : List TmplPart)
    (hp : parseTemplate html
      = Except.ok (pre ++ TmplPart.slotCSS :: mid ++ TmplPart.slotJS :: post))
    (hs : ∀ e ∈ fs, e.size < maxInt) :
    preprocess fs html port = Except.ok
        (renderTemplate pre (cssWrapped fs) (jsWrapped fs port)
          ++ (cssWrapped fs
          ++ (renderTemplate mid (cssWrapped fs) (jsWrapped fs port)
          ++ (jsWrapped fs port
          ++ renderTemplate post (cssWrapped fs) (jsWrapped fs port))))) ∧
    (∀ e ∈ fs, ∀ c : String, e.content = some c → lowerStr (goExt e.path) = ".css" →
      containsStr (cssWrapped fs) c) ∧
    (∀ e ∈ fs, ∀ c : String, e.content = some c → lowerStr (goExt e.path) = ".js" →
      containsStr (jsWrapped fs port) c) := by
  refine ⟨?_, ?_, ?_⟩
  · rw [preprocess_ok fs html port _ hp hs, renderTemplate_two_slots]
  · intro e he c hc hext
    exact cssWrapped_contains fs e he c hc hext
  · intro e he c hc hext
    exact jsWrapped_contains fs port e he c hc hext

/-- Witness for C6 at the scenario of the spec: a.css and b.js with a
template that places the CSS slot before the Javascript slot. -/
theorem c6_render_witness :
    preprocess [⟨"a.css", 15, some "body\x7bcolor:red\x7d"⟩, ⟨"b.js", 14, some "console.log(1)"⟩]
        "T\x7b\x7b.CSS\x7d\x7dM\x7b\x7b.Javascript\x7d\x7dS" 0 = Except.ok
        (renderTemplate [TmplPart.lit "T"]
            (cssWrapped [⟨"a.css", 15, some "body\x7bcolor:red\x7d"⟩,
              ⟨"b.js", 14, some "console.log(1)"⟩])
            (jsWrapped [⟨"a.css", 15, some "body\x7bcolor:red\x7d"⟩,
              ⟨"b.js", 14, some "console.log(1)"⟩] 0)
          ++ (cssWrapped [⟨"a.css", 15, some "body\x7bcolor:red\x7d"⟩,
              ⟨"b.js", 14, some "console.log(1)"⟩]
          ++ (renderTemplate [TmplPart.lit "M"]
            (cssWrapped [⟨"a.css", 15, some "body\x7bcolor:red\x7d"⟩,
              ⟨"b.js", 14, some "console.log(1)"⟩])
            (jsWrapped [⟨"a.css", 15, some "body\x7bcolor:red\x7d"⟩,
              ⟨"b.js", 14, some "console.log(1)"⟩] 0)
          ++ (jsWrapped [⟨"a.css", 15, some "body\x7bcolor:red\x7d"⟩,
              ⟨"b.js", 14, some "console.log(1)"⟩] 0
          ++ renderTemplate [TmplPart.lit "S"]
            (cssWrapped [⟨"a.css", 15, some "body\x7bcolor:red\x7d"⟩,
              ⟨"b.js", 14, some "console.log(1)"⟩])
            (jsWrapped [⟨"a.css", 15, some "body\x7bcolor:red\x7d"⟩,
              ⟨"b.js", 14, some "console.log(1)"⟩] 0))))) ∧
    containsStr
      (cssWrapped [⟨"a.css", 15, some "body\x7bcolor:red\x7d"⟩,
        ⟨"b.js", 14, some "console.log(1)"⟩]) "body\x7bcolor:red\x7d" ∧
    containsStr
      (jsWrapped [⟨"a.css", 15, some "body\x7bcolor:red\x7d"⟩,
        ⟨"b.js", 14, some "console.log(1)"⟩] 0) "console.log(1)" := by
  have h := c6_render
    [⟨"a.css", 15, some "body\x7bcolor:red\x7d"⟩, ⟨"b.js", 14, some "console.log(1)"⟩]
    "T\x7b\x7b.CSS\x7d\x7dM\x7b\x7b.Javascript\x7d\x7dS" 0
    [TmplPart.lit "T"] [TmplPart.lit "M"] [TmplPart.lit "S"] rfl (by decide)
  refine ⟨h.1, ?_, ?_⟩
  · exact h.2.1 ⟨"a.css", 15, some "body\x7bcolor:red\x7d"⟩ (by simp)
      "body\x7bcolor:red\x7d" rfl (by decide)
  · exact h.2.2 ⟨"b.js", 14, some "console.log(1)"⟩ (by simp)
      "console.log(1)" rfl (by decide)

/-! ### Claim C8: idempotence -/

/-- Claim C8: with the input directory contents, the template text and
the reload port unchanged, running the build again produces byte-wise
identical output: the second build result equals the first, whatever
artifact bytes the first build left behind. -/
theorem c8_idempotent (prev : String) (fs : List FsEntry) (html : String) (port : Nat) :
    (runBuild (runBuild prev fs html port).fileBytes fs html port).fileBytes
      = (runBuild prev fs html port).fileBytes ∧
    runBuild (runBuild prev fs html port).fileBytes fs html port
      = runBuild prev fs html port := by
  rcases h : preprocessOut fs html port with ⟨w, err⟩
  cases err <;> simp [runBuild, h]

/-! ### Claim C9: the size limit -/

/-- Claim C9: a walked .js or .css file that is still openable and whose
reported size is at least the maximum int makes preprocess return an
error, so nothing is rendered; when every file is below the limit and
the template parses, preprocess succeeds. -/
theorem c9_size_limit (fs : List FsEntry) (html : String) (port : Nat) :
    (∀ e ∈ fs, (lowerStr (goExt e.path) = ".js" ∨ lowerStr (goExt e.path) = ".css") →
      ∀ c : String, e.content = some c → maxInt ≤ e.size →
        isErr (preprocess fs html port) = true) ∧
    ((∀ e ∈ fs, e.size < maxInt) → ∀ parts, parseTemplate html = Except.ok parts →
      isErr (preprocess fs html port) = false) := by
  constructor
  · intro e he hext c hc hsz
    cases hn : parseNodes html with
    | error m2 => simp [preprocess, preprocessOut, hn, isErr]
    | ok nodes =>
      rcases walkAll_err (walkFiles fs) e (mem_walkFiles fs e he) hext c hc hsz
        (styleOpen, scriptOpen) with ⟨m2, hm⟩
      simp [preprocess, preprocessOut, hn, hm, isErr]
  · intro hs parts hp
    rw [preprocess_ok fs html port parts hp hs]
    rfl

/-- Witness for C9: one oversized js file aborts the build; a small one
is accepted. -/
theorem c9_size_limit_witness :
    isErr (preprocess [⟨"big.js", 2 ^ 63, some "x"⟩] "\x7b\x7b.CSS\x7d\x7d" 0) = true ∧
    isErr (preprocess [⟨"a.js", 1, some "x"⟩] "\x7b\x7b.CSS\x7d\x7d" 0) = false :=
  ⟨(c9_size_limit [⟨"big.js", 2 ^ 63, some "x"⟩] "\x7b\x7b.CSS\x7d\x7d" 0).1
      ⟨"big.js", 2 ^ 63, some "x"⟩ (by simp) (Or.inl (by decide)) "x" rfl (by decide),
   (c9_size_limit [⟨"a.js", 1, some "x"⟩] "\x7b\x7b.CSS\x7d\x7d" 0).2
      (by decide) [TmplPart.slotCSS] rfl⟩

/-! ### Claim C10: walk order and vanished files -/

theorem walkAll_skip (t d : List FsEntry) (e0 : FsEntry) (h0 : e0.content = none)
    (acc : String × String) :
    walkAll (t ++ e0 :: d) acc = walkAll (t ++ d) acc := by
  rw [walkAll_append, walkAll_append]
  cases hw : walkAll t acc with
  | error m => rfl
  | ok acc2 =>
    have hstep : walkStep acc2 e0 = Except.ok acc2 := by
      simp only [walkStep, h0]
      split <;> rfl
    show walkAll (e0 :: d) acc2 = walkAll d acc2
    rw [walkAll, hstep]

theorem preprocessOut_skip (fs : List FsEntry) (html : String) (port : Nat) (e0 : FsEntry)
    (h0 : e0.content = none) :
    preprocessOut (e0 :: fs) html port = preprocessOut fs html port := by
  cases hn : parseNodes html with
  | error e => simp [preprocessOut, hn]
  | ok nodes =>
    simp only [preprocessOut, hn]
    rw [show walkFiles (e0 :: fs) = List.orderedInsert pathLe e0 (walkFiles fs) from rfl,
      List.orderedInsert_eq_take_drop, walkAll_skip _ _ _ h0,
      List.takeWhile_append_dropWhile]

/-- Counterexample to claim C10: filepath.Walk is depth-first with each
directory read in sorted name order, which is not the lexical order of
the full path strings.  With the files in/a/x.css (content X) and
in/a-b.css (content Y), the full path in/a-b.css sorts first as a plain
string (the minus byte precedes the separator byte), yet the walk visits
the sibling a before a-b.css and the build concatenates XY, not YX. -/
theorem c10_counterexample :
    lexLtB "in/a-b.css".data "in/a/x.css".data = true ∧
    walkFiles [⟨"in/a-b.css", 1, some "Y"⟩, ⟨"in/a/x.css", 1, some "X"⟩]
      = [⟨"in/a/x.css", 1, some "X"⟩, ⟨"in/a-b.css", 1, some "Y"⟩] ∧
    preprocess [⟨"in/a-b.css", 1, some "Y"⟩, ⟨"in/a/x.css", 1, some "X"⟩]
        "\x7b\x7b.CSS\x7d\x7d" 0
      = Except.ok "<style type=\"text/css\">XY</style>" := by
  refine ⟨by decide, by decide, by rfl⟩

/-- Claim C10 as amended: the walk enumerates the files in the visit
order of filepath.Walk, depth-first with each directory read in sorted
name order, that is, full paths ordered lexicographically by their
separator-split components (this coincides with sorted full-path order
for a flat directory but differs on nested trees); the css and js
buffers concatenate contents in that order (the build succeeds and
renders those buffers); and a file that vanished between the walk
listing and the open contributes nothing: the build output with it
present is identical to the output without it. -/
theorem c10_amended (fs : List FsEntry) (html : String) (port : Nat) (parts : List TmplPart)
    (hp : parseTemplate html = Except.ok parts) (hs : ∀ e ∈ fs, e.size < maxInt)
    (e0 : FsEntry) (h0 : e0.content = none) :
    ((walkFiles fs).map (fun e => pathParts e.path)).Sorted compsLe ∧
    preprocess fs html port
      = Except.ok (renderTemplate parts (cssWrapped fs) (jsWrapped fs port)) ∧
    preprocess (e0 :: fs) html port = preprocess fs html port := by
  refine ⟨?_, preprocess_ok fs html port parts hp hs, ?_⟩
  · exact List.pairwise_map.mpr (List.sorted_insertionSort pathLe fs)
  · simp [preprocess, preprocessOut_skip fs html port e0 h0]

/-- Witness for C10 as amended: two css files listed out of order are
concatenated in walk order, and a vanished file changes nothing. -/
theorem c10_amended_witness :
    ((walkFiles [⟨"b.css", 1, some "B"⟩, ⟨"a.css", 1, some "A"⟩]).map
        (fun e => pathParts e.path)).Sorted compsLe ∧
    preprocess [⟨"b.css", 1, some "B"⟩, ⟨"a.css", 1, some "A"⟩] "\x7b\x7b.CSS\x7d\x7d" 0
      = Except.ok (renderTemplate [TmplPart.slotCSS]
          (cssWrapped [⟨"b.css", 1, some "B"⟩, ⟨"a.css", 1, some "A"⟩])
          (jsWrapped [⟨"b.css", 1, some "B"⟩, ⟨"a.css", 1, some "A"⟩] 0)) ∧
    preprocess (⟨"gone.js", 5, none⟩ :: [⟨"b.css", 1, some "B"⟩, ⟨"a.css", 1, some "A"⟩])
        "\x7b\x7b.CSS\x7d\x7d" 0
      = preprocess [⟨"b.css", 1, some "B"⟩, ⟨"a.css", 1, some "A"⟩] "\x7b\x7b.CSS\x7d\x7d" 0 :=
  c10_amended [⟨"b.css", 1, some "B"⟩, ⟨"a.css", 1, some "A"⟩] "\x7b\x7b.CSS\x7d\x7d" 0
    [TmplPart.slotCSS] rfl (by decide) ⟨"gone.js", 5, none⟩ rfl

end Wpp
